import Mathlib

/-!
Verification of the clause-analysis pipeline in `legal_analyzer.py`
(repository Sujith889/Finale).

Strings are embedded as `List Char`.  Python's `str.lower`, `str.strip`
and substring containment (`in`) are embedded over ASCII, which covers
every keyword, template and test string of the pipeline.  The regular
expression split in `split_into_clauses`, difflib's `SequenceMatcher`
matching-block algorithm in `detect_boilerplate`, and the orchestrator
loop of `analyze_document` are embedded directly from the source.
External collaborators (the sentiment, emotion and summarization
pipelines and the dateparser search) are abstracted as an `ExtModels`
record of fallible functions; the `Except` monad models an uncaught
Python exception propagating out of `analyze_document`.
-/

set_option maxRecDepth 100000

namespace Finale

/-- Error type of a propagated Python exception: its message text. -/
abbrev Err := List Char

/-- Python's `\s` / `str.strip` whitespace over ASCII:
space, tab, newline, carriage return, vertical tab, form feed. -/
def isPySpace (c : Char) : Bool :=
  c = ' ' || c = '\t' || c = '\n' || c = '\r' || c = '\x0b' || c = '\x0c'

/-- `[A-Z]` of the splitting regex. -/
def isUpperAZ (c : Char) : Bool :=
  'A' ≤ c && c ≤ 'Z'

/-- `\d` of the splitting regex (ASCII digits). -/
def isDigit09 (c : Char) : Bool :=
  '0' ≤ c && c ≤ '9'

/-- Python `str.lower()` (ASCII case folding, as used by every keyword
comparison in the analyzer). -/
def pyLower (s : List Char) : List Char :=
  s.map Char.toLower

/-- Python `str.strip()`: remove leading and trailing whitespace. -/
def pyStrip (s : List Char) : List Char :=
  ((s.dropWhile isPySpace).reverse.dropWhile isPySpace).reverse

/-- Python substring containment `needle in hay`. -/
def isSubstr (needle : List Char) : List Char → Bool
  | [] => needle.isEmpty
  | c :: t => needle.isPrefixOf (c :: t) || isSubstr needle t

/-! ## The splitting regex `(?<=\.)\s+(?=[A-Z])|\n|\d+\.\s+`

`re.split` scans left to right; at each position the three alternatives
are tried in order.  Each alternative consumes at least one character.
The lookbehind `(?<=\.)` inspects the character just before the current
scan position (`prev` below, `none` at the start of the string). -/

/-- Does the list start with an uppercase ASCII letter (the lookahead
`(?=[A-Z])`)? -/
def startsUpper : List Char → Bool
  | c :: _ => isUpperAZ c
  | [] => false

/-- First alternative `(?<=\.)\s+(?=[A-Z])`: after a period, a maximal
nonempty run of whitespace followed by an uppercase letter.  Returns the
consumed characters and the remaining input. -/
def alt1 (prev : Option Char) (l : List Char) : Option (List Char × List Char) :=
  if prev = some '.' ∧ l.takeWhile isPySpace ≠ [] ∧ startsUpper (l.dropWhile isPySpace) = true then
    some (l.takeWhile isPySpace, l.dropWhile isPySpace)
  else none

/-- Second alternative `\n`. -/
def alt2 (l : List Char) : Option (List Char × List Char) :=
  match l with
  | '\n' :: rest => some (['\n'], rest)
  | _ => none

/-- Third alternative `\d+\.\s+`: a nonempty run of digits, a period,
then a maximal nonempty run of whitespace. -/
def alt3 (l : List Char) : Option (List Char × List Char) :=
  if l.takeWhile isDigit09 ≠ [] then
    match l.dropWhile isDigit09 with
    | '.' :: r2 =>
      if r2.takeWhile isPySpace ≠ [] then
        some (l.takeWhile isDigit09 ++ '.' :: r2.takeWhile isPySpace, r2.dropWhile isPySpace)
      else none
    | _ => none
  else none

/-- Try the three alternatives of the pattern, in order, at the current
scan position. -/
def firstMatch (prev : Option Char) (l : List Char) : Option (List Char × List Char) :=
  match alt1 prev l with
  | some m => some m
  | none =>
    match alt2 l with
    | some m => some m
    | none => alt3 l

theorem length_takeWhile_add (p : Char → Bool) (l : List Char) :
    (l.takeWhile p).length + (l.dropWhile p).length = l.length := by
  have h := congrArg List.length (List.takeWhile_append_dropWhile p (l := l))
  rw [List.length_append] at h
  exact h

theorem alt1_rest_lt {prev : Option Char} {l m r : List Char}
    (h : alt1 prev l = some (m, r)) : r.length < l.length := by
  unfold alt1 at h
  split at h
  · rename_i hc
    simp only [Option.some.injEq, Prod.mk.injEq] at h
    obtain ⟨-, rfl⟩ := h
    have k := length_takeWhile_add isPySpace l
    have hpos := List.length_pos.mpr hc.2.1
    omega
  · simp at h

theorem alt2_rest_lt {l m r : List Char}
    (h : alt2 l = some (m, r)) : r.length < l.length := by
  unfold alt2 at h
  split at h
  · simp only [Option.some.injEq, Prod.mk.injEq] at h
    obtain ⟨-, rfl⟩ := h
    simp
  · simp at h

theorem alt3_rest_lt {l m r : List Char}
    (h : alt3 l = some (m, r)) : r.length < l.length := by
  unfold alt3 at h
  split at h
  · rename_i hds
    split at h
    · rename_i r2 heq
      split at h
      · simp only [Option.some.injEq, Prod.mk.injEq] at h
        obtain ⟨-, rfl⟩ := h
        have k1 := length_takeWhile_add isDigit09 l
        have k2 := length_takeWhile_add isPySpace r2
        have h3 : (l.dropWhile isDigit09).length = r2.length + 1 := by rw [heq]; rfl
        have h4 := List.length_pos.mpr hds
        omega
      · simp at h
    · simp at h
  · simp at h

theorem firstMatch_rest_lt {prev : Option Char} {l m r : List Char}
    (h : firstMatch prev l = some (m, r)) : r.length < l.length := by
  unfold firstMatch at h
  split at h
  · rename_i h1; cases h; exact alt1_rest_lt h1
  · split at h
    · rename_i h2; cases h; exact alt2_rest_lt h2
    · exact alt3_rest_lt h

/-- The scanning loop of `re.split`: emit the accumulated piece at every
match, otherwise advance one character.  `prev` is the character before
the scan position (for the lookbehind), `acc` the current piece reversed.
The first argument is fuel, making the recursion structural; every step
consumes at least one input character (`firstMatch_rest_lt`), so fuel
`l.length + 1` always suffices (`splitScanF_fuel_irrel` below). -/
def splitScanF : Nat → Option Char → List Char → List Char → List (List Char)
  | 0, _, acc, _ => [acc.reverse]
  | fuel + 1, prev, acc, l =>
    match firstMatch prev l with
    | some (m, r) => acc.reverse :: splitScanF fuel (some (m.getLastD ' ')) [] r
    | none =>
      match l with
      | [] => [acc.reverse]
      | c :: rest => splitScanF fuel (some c) (c :: acc) rest

/-- The fuel argument is irrelevant once it exceeds the input length:
`splitScanF` only ever recurses on strictly shorter input. -/
theorem splitScanF_fuel_irrel : ∀ (fuel fuel' : Nat) (prev : Option Char)
    (acc l : List Char), l.length < fuel → l.length < fuel' →
    splitScanF fuel prev acc l = splitScanF fuel' prev acc l := by
  intro fuel
  induction fuel with
  | zero => intro fuel' prev acc l h; omega
  | succ f ih =>
    intro fuel' prev acc l h h'
    cases fuel' with
    | zero => omega
    | succ f' =>
      simp only [splitScanF]
      cases hm : firstMatch prev l with
      | some mr =>
        obtain ⟨m, r⟩ := mr
        have hlt := firstMatch_rest_lt hm
        exact congrArg _ (ih f' _ _ _ (by omega) (by omega))
      | none =>
        cases l with
        | nil => rfl
        | cons c rest =>
          simp only [List.length_cons] at h h'
          exact ih f' _ _ _ (by omega) (by omega)

/-- `split_into_clauses` from `legal_analyzer.py`:
`re.split(r'(?<=\.)\s+(?=[A-Z])|\n|\d+\.\s+', text.strip())`. -/
def split_into_clauses (text : List Char) : List (List Char) :=
  splitScanF ((pyStrip text).length + 1) none [] (pyStrip text)

/-! ## Keyword tables and the pure per-clause analyses -/

/-- Keywords of the "Obligation" entry of `clause_keywords`. -/
def obligationKeywords : List (List Char) :=
  ["shall".toList, "must".toList, "agree to".toList]

/-- Keywords of the "Rights" entry of `clause_keywords`. -/
def rightsKeywords : List (List Char) :=
  ["reserves the right".toList, "may".toList]

/-- Keywords of the "Confidentiality" entry of `clause_keywords`. -/
def confidentialityKeywords : List (List Char) :=
  ["confidential".toList, "non-disclosure".toList]

/-- Keywords of the "Risk" entry of `clause_keywords`. -/
def riskCategoryKeywords : List (List Char) :=
  ["liable".toList, "indemnify".toList, "at your own risk".toList]

/-- The `clause_keywords` dict; Python dicts iterate in insertion order,
embedded here as an association list in declared order. -/
def clause_keywords : List (List Char × List (List Char)) :=
  [("Obligation".toList, obligationKeywords),
   ("Rights".toList, rightsKeywords),
   ("Confidentiality".toList, confidentialityKeywords),
   ("Risk".toList, riskCategoryKeywords)]

/-- The inner loop of `classify_clause`: does some keyword of the list
satisfy `kw.lower() in clause.lower()`? -/
def kwMatch (kws : List (List Char)) (clause : List Char) : Bool :=
  kws.any (fun kw => isSubstr (pyLower kw) (pyLower clause))

/-- `boilerplate_templates` from `legal_analyzer.py`. -/
def boilerplate_templates : List (List Char) :=
  ["This Agreement shall be governed by the laws of the State of".toList,
   "The parties agree to the following terms and conditions".toList]

/-- `classify_clause`: the first category, in dict order, one of whose
keywords is contained (case-insensitively) in the clause; else "Other". -/
def classify_clause (clause : List Char) : List Char :=
  match clause_keywords.find? (fun p => kwMatch p.2 clause) with
  | some p => p.1
  | none => "Other".toList

/-- The `risk_keywords` local list of `grade_clause`. -/
def risk_keywords : List (List Char) :=
  ["liable".toList, "indemnify".toList, "terminate".toList, "breach".toList]

/-- `grade_clause`: `score = sum(1 for kw in risk_keywords if kw in
clause.lower())`, importance by thresholds 2 and 1.  Returns
`(importance, score)` in the source's tuple order. -/
def grade_clause (clause : List Char) : List Char × Nat :=
  let score := (risk_keywords.map (fun kw => if isSubstr kw (pyLower clause) then 1 else 0)).sum
  let importance :=
    if score ≥ 2 then "High".toList
    else if score = 1 then "Medium".toList
    else "Low".toList
  (importance, score)

/-- `rewrite_clause`: three fixed suggestions, `indemnify` checked before
`liable` on the lowercased clause. -/
def rewrite_clause (clause : List Char) : List Char :=
  let cl := pyLower clause
  if isSubstr "indemnify".toList cl then
    "Consider softening indemnity to mutual responsibility.".toList
  else if isSubstr "liable".toList cl then
    "Clarify or limit liability language.".toList
  else
    "Clause appears clear.".toList

/-! ## difflib `SequenceMatcher` for `detect_boilerplate`

Both templates are shorter than 200 characters, so difflib's autojunk
heuristic never activates and there are no junk elements.
`find_longest_match` then returns the longest block `a[i:i+k] = b[j:j+k]`,
preferring the smallest `i` and, among those, the smallest `j`;
`get_matching_blocks` recurses on the pieces left and right of that
block, and `ratio` is `2*M/T` for `M` the total matched size and `T` the
sum of the lengths.  The comparison `ratio() > 0.8` is embedded exactly
over the rationals: `2*M/T > 4/5 ↔ 5*M > 2*T`. -/

/-- Length of the longest common prefix: the size of the matching block
that starts at a given pair of positions. -/
def cpl : List Char → List Char → Nat
  | a :: as, b :: bs => if a = b then cpl as bs + 1 else 0
  | _, _ => 0

/-- Best `(j, k)` over the suffixes of `b`: the largest block size `k`
between `sa` and a suffix of `b`, at the earliest such `j`. -/
def flmRow (sa : List Char) : List Char → Nat × Nat
  | [] => (0, 0)
  | b :: bs =>
    let k0 := cpl sa (b :: bs)
    let jk := flmRow sa bs
    if jk.2 > k0 then (jk.1 + 1, jk.2) else (0, k0)

/-- `find_longest_match` (no junk): the longest matching block `(i, j, k)`,
ties broken by smallest `i`, then smallest `j`. -/
def flm : List Char → List Char → Nat × Nat × Nat
  | [], _ => (0, 0, 0)
  | a :: as, b =>
    let jk := flmRow (a :: as) b
    let t := flm as b
    if t.2.2 > jk.2 then (t.1 + 1, t.2.1, t.2.2) else (0, jk.1, jk.2)

theorem cpl_le_left : ∀ (a b : List Char), cpl a b ≤ a.length := by
  intro a
  induction a with
  | nil => intro b; cases b <;> simp [cpl]
  | cons x xs ih =>
    intro b
    cases b with
    | nil => simp [cpl]
    | cons y ys =>
      simp only [cpl]
      split
      · have := ih ys; simp; omega
      · simp

theorem cpl_le_right : ∀ (a b : List Char), cpl a b ≤ b.length := by
  intro a
  induction a with
  | nil => intro b; cases b <;> simp [cpl]
  | cons x xs ih =>
    intro b
    cases b with
    | nil => simp [cpl]
    | cons y ys =>
      simp only [cpl]
      split
      · have := ih ys; simp; omega
      · simp

theorem flmRow_bounds (sa : List Char) :
    ∀ (b : List Char), (flmRow sa b).1 + (flmRow sa b).2 ≤ b.length ∧
      (flmRow sa b).2 ≤ sa.length := by
  intro b
  induction b with
  | nil => simp [flmRow]
  | cons y ys ih =>
    have h1 := cpl_le_left sa (y :: ys)
    have h2 := cpl_le_right sa (y :: ys)
    simp only [List.length_cons] at h2 ⊢
    simp only [flmRow]
    split
    · constructor <;> simp <;> omega
    · constructor <;> simp <;> omega

theorem flm_bounds : ∀ (a b : List Char),
    (flm a b).1 + (flm a b).2.2 ≤ a.length ∧
      (flm a b).2.1 + (flm a b).2.2 ≤ b.length := by
  intro a
  induction a with
  | nil => intro b; simp [flm]
  | cons x xs ih =>
    intro b
    have hr := flmRow_bounds (x :: xs) b
    have hi := ih b
    simp only [List.length_cons] at hr ⊢
    simp only [flm]
    split
    · constructor <;> simp <;> omega
    · constructor <;> simp <;> omega

/-- Total size of the matching blocks of `get_matching_blocks`:
recursively take the longest match and recurse on both sides.  The first
argument is fuel; each recursive call strictly shrinks `a` (by
`flm_bounds`, a nonempty block has `i + k ≤ a.length` with `k ≥ 1`), so
fuel `a.length + 1` always suffices (`matchingSizeF_fuel_irrel`). -/
def matchingSizeF : Nat → List Char → List Char → Nat
  | 0, _, _ => 0
  | fuel + 1, a, b =>
    if (flm a b).2.2 = 0 then 0
    else
      matchingSizeF fuel (a.take (flm a b).1) (b.take (flm a b).2.1) + (flm a b).2.2 +
        matchingSizeF fuel (a.drop ((flm a b).1 + (flm a b).2.2)) (b.drop ((flm a b).2.1 + (flm a b).2.2))

theorem matchingSizeF_fuel_irrel : ∀ (fuel fuel' : Nat) (a b : List Char),
    a.length < fuel → a.length < fuel' →
    matchingSizeF fuel a b = matchingSizeF fuel' a b := by
  intro fuel
  induction fuel with
  | zero => intro fuel' a b h; omega
  | succ f ih =>
    intro fuel' a b h h'
    cases fuel' with
    | zero => omega
    | succ f' =>
      simp only [matchingSizeF]
      split
      · rfl
      · have hb := flm_bounds a b
        have h1 : (a.take (flm a b).1).length < f ∧ (a.take (flm a b).1).length < f' := by
          simp only [List.length_take]; omega
        have h2 : (a.drop ((flm a b).1 + (flm a b).2.2)).length < f ∧
            (a.drop ((flm a b).1 + (flm a b).2.2)).length < f' := by
          simp only [List.length_drop]; omega
        rw [ih f' _ _ h1.1 h1.2, ih f' _ _ h2.1 h2.2]

/-- `M`, the total matched size of `SequenceMatcher.get_matching_blocks`. -/
def matchingSize (a b : List Char) : Nat :=
  matchingSizeF (a.length + 1) a b

/-- `SequenceMatcher(None, a, b).ratio() > 0.8`, over the rationals. -/
def seqRatioGt08 (a b : List Char) : Bool :=
  decide (5 * matchingSize a b > 2 * (a.length + b.length))

/-- `detect_boilerplate`: some template's similarity ratio with the
lowercased clause exceeds 0.8. -/
def detect_boilerplate (clause : List Char) : Bool :=
  boilerplate_templates.any (fun t => seqRatioGt08 (pyLower clause) (pyLower t))

/-! ## External collaborators and the fallible pipeline steps

The transformers pipelines and dateparser's `search_dates` are external
black boxes; they are abstracted as a record of functions that either
return a well-formed response or fail (a raised exception, embedded as
`Except.error`).  The projections `[0]['label']`, `[0]` and
`[0]['summary_text']` of a well-formed pipeline response are folded into
the abstracted functions. -/

structure ExtModels where
  /-- `sentiment_classifier(text)[0]['label']`. -/
  sentimentLabel : List Char → Except Err (List Char)
  /-- `emotion_classifier(text)[0]`: a list of `(label, score)` entries. -/
  emotionScores : List Char → Except Err (List (List Char × Rat))
  /-- `summarizer(text)[0]['summary_text']`. -/
  summaryText : List Char → Except Err (List Char)
  /-- `search_dates(clause)`: `None` or a list of (matched text, datetime)
  pairs, a datetime abstracted as its (year, month, day). -/
  searchDates : List Char → Except Err (Option (List (List Char × (Nat × Nat × Nat))))

/-- Python `max(xs, key=lambda x: x['score'])`: the first entry with the
maximal score; raises `ValueError` on an empty sequence. -/
def pyMaxByScore (xs : List (List Char × Rat)) : Except Err (List Char × Rat) :=
  match xs with
  | [] => Except.error "max() arg is an empty sequence".toList
  | x :: rest => Except.ok (rest.foldl (fun best y => if best.2 < y.2 then y else best) x)

/-- `analyze_tone`: truncate to 512 characters, then query the sentiment
and emotion models; both labels are lowercased. -/
def analyze_tone (M : ExtModels) (text : List Char) : Except Err (List Char × List Char) := do
  let t := text.take 512
  let lab ← M.sentimentLabel t
  let scores ← M.emotionScores t
  let top ← pyMaxByScore scores
  pure (pyLower lab, pyLower top.1)

/-- `summarize`: truncate to `max_len = 1024` characters and query the
summarization model. -/
def summarize (M : ExtModels) (text : List Char) : Except Err (List Char) :=
  M.summaryText (text.take 1024)

/-- Left-pad with zeros, as `strftime` does for `%Y`, `%m`, `%d`. -/
def padZeros (n : Nat) (s : List Char) : List Char :=
  List.replicate (n - s.length) '0' ++ s

/-- `datetime.strftime("%Y-%m-%d")` on the (year, month, day) triple. -/
def formatYmd : Nat × Nat × Nat → List Char
  | (y, m, d) =>
    padZeros 4 (Nat.toDigits 10 y) ++ '-' :: padZeros 2 (Nat.toDigits 10 m) ++
      '-' :: padZeros 2 (Nat.toDigits 10 d)

/-- `extract_timeline`: format the dates `search_dates` found; an empty
or `None` result (both falsy in Python) yields the empty list. -/
def extract_timeline (M : ExtModels) (clause : List Char) :
    Except Err (List (List Char × List Char)) := do
  let dates ← M.searchDates clause
  match dates with
  | some ds => if ds.isEmpty then pure [] else pure (ds.map (fun d => (d.1, formatYmd d.2)))
  | none => pure []

/-! ## The orchestrator `analyze_document` -/

/-- The per-clause result record built by `analyze_document`. -/
structure ClauseResult where
  clause_num : Nat
  clause_text : List Char
  category : List Char
  importance : List Char
  risk_score : Nat
  dates : List (List Char × List Char)
  boilerplate : Bool
  sentiment : List Char
  tone : List Char
  rewrite_suggestion : List Char
deriving DecidableEq

deriving instance DecidableEq for Except

/-- The body of `analyze_document`'s loop for one retained clause, in
source order: classify, grade, timeline, boilerplate, tone, rewrite. -/
def analyzeClause (M : ExtModels) (i : Nat) (clause : List Char) :
    Except Err ClauseResult := do
  let category := classify_clause clause
  let gr := grade_clause clause
  let dates ← extract_timeline M clause
  let is_boilerplate := detect_boilerplate clause
  let st ← analyze_tone M clause
  let rewrite := rewrite_clause clause
  pure { clause_num := i, clause_text := clause, category := category,
         importance := gr.1, risk_score := gr.2, dates := dates,
         boilerplate := is_boilerplate, sentiment := st.1, tone := st.2,
         rewrite_suggestion := rewrite }

/-- `for i, clause in enumerate(clauses, 1)`: skip clauses that strip to
empty, analyze the rest; an uncaught exception aborts the whole loop. -/
def analyzeLoop (M : ExtModels) : List (List Char) → Nat → Except Err (List ClauseResult)
  | [], _ => Except.ok []
  | clause :: rest, i =>
    if pyStrip clause = [] then analyzeLoop M rest (i + 1)
    else do
      let r ← analyzeClause M i clause
      let rs ← analyzeLoop M rest (i + 1)
      pure (r :: rs)

/-- `analyze_document` from `legal_analyzer.py`. -/
def analyze_document (M : ExtModels) (text : List Char) : Except Err (List ClauseResult) :=
  analyzeLoop M (split_into_clauses text) 1

/-- The retained clauses of a document with their 1-based positions in
the splitter's full output: `enumerate(clauses, 1)` restricted to the
entries whose text does not strip to empty. -/
def retainedClauses (text : List Char) : List (Nat × List Char) :=
  (List.enumFrom 1 (split_into_clauses text)).filter (fun p => !(pyStrip p.2).isEmpty)

/-! ## Concrete external-model instances

Used to evaluate the pipeline at concrete documents in witnesses and
counterexamples. -/

/-- External models that always respond. -/
def pureModels : ExtModels where
  sentimentLabel := fun _ => Except.ok "POSITIVE".toList
  emotionScores := fun _ => Except.ok [("neutral".toList, 1)]
  summaryText := fun _ => Except.ok "summary".toList
  searchDates := fun _ => Except.ok none

/-- External models whose sentiment classifier always raises. -/
def failModels : ExtModels where
  sentimentLabel := fun _ => Except.error "model failure".toList
  emotionScores := fun _ => Except.ok [("neutral".toList, 1)]
  summaryText := fun _ => Except.ok "summary".toList
  searchDates := fun _ => Except.ok none

/-! ## Behaviour of the orchestrator loop -/

theorem analyzeClause_ok_fields (M : ExtModels) (i : Nat) (c : List Char)
    (r : ClauseResult) (h : analyzeClause M i c = Except.ok r) :
    r.clause_num = i ∧ r.clause_text = c := by
  unfold analyzeClause at h
  cases h1 : extract_timeline M c with
  | error e => rw [h1] at h; simp [Bind.bind, Except.bind] at h
  | ok ds =>
    rw [h1] at h
    cases h2 : analyze_tone M c with
    | error e => rw [h2] at h; simp [Bind.bind, Except.bind] at h
    | ok st =>
      rw [h2] at h
      simp only [Bind.bind, Except.bind, pure, Except.pure, Except.ok.injEq] at h
      subst h
      exact ⟨rfl, rfl⟩

theorem analyzeLoop_cases (M : ExtModels) : ∀ (cs : List (List Char)) (i : Nat),
    (∃ rs, analyzeLoop M cs i = Except.ok rs ∧
      rs.map (fun r => (r.clause_num, r.clause_text)) =
        (List.enumFrom i cs).filter (fun p => !(pyStrip p.2).isEmpty)) ∨
    (∃ e pre p post, analyzeLoop M cs i = Except.error e ∧
      (List.enumFrom i cs).filter (fun p => !(pyStrip p.2).isEmpty) = pre ++ p :: post ∧
      (∀ q ∈ pre, ∃ r, analyzeClause M q.1 q.2 = Except.ok r) ∧
      analyzeClause M p.1 p.2 = Except.error e) := by
  intro cs
  induction cs with
  | nil =>
    intro i
    left
    exact ⟨[], rfl, by simp [List.enumFrom]⟩
  | cons c cs ih =>
    intro i
    by_cases hs : pyStrip c = []
    · have hkeep : (!(pyStrip c).isEmpty) = false := by
        simp [List.isEmpty_iff, hs]
      have hloop : analyzeLoop M (c :: cs) i = analyzeLoop M cs (i + 1) := by
        simp [analyzeLoop, hs]
      have hfil : (List.enumFrom i (c :: cs)).filter (fun p => !(pyStrip p.2).isEmpty) =
          (List.enumFrom (i + 1) cs).filter (fun p => !(pyStrip p.2).isEmpty) := by
        simp [List.enumFrom, List.filter_cons, hkeep]
      rw [hloop, hfil]
      exact ih (i + 1)
    · have hkeep : (!(pyStrip c).isEmpty) = true := by
        simp [List.isEmpty_iff, hs]
      have hfil : (List.enumFrom i (c :: cs)).filter (fun p => !(pyStrip p.2).isEmpty) =
          (i, c) :: (List.enumFrom (i + 1) cs).filter (fun p => !(pyStrip p.2).isEmpty) := by
        simp [List.enumFrom, List.filter_cons, hkeep]
      cases hc : analyzeClause M i c with
      | error e =>
        right
        refine ⟨e, [], (i, c), (List.enumFrom (i + 1) cs).filter (fun p => !(pyStrip p.2).isEmpty),
          ?_, by simp [List.enumFrom, List.filter_cons, hkeep], by simp, hc⟩
        simp [analyzeLoop, hs, hc, Bind.bind, Except.bind]
      | ok r =>
        have hr := analyzeClause_ok_fields M i c r hc
        have hloop : analyzeLoop M (c :: cs) i =
            (analyzeLoop M cs (i + 1)).map (fun rs => r :: rs) := by
          cases hrec : analyzeLoop M cs (i + 1) with
          | error e => simp [analyzeLoop, hs, hc, hrec, Bind.bind, Except.bind, Except.map]
          | ok rs =>
            simp [analyzeLoop, hs, hc, hrec, Bind.bind, Except.bind, Except.map, pure, Except.pure]
        rcases ih (i + 1) with ⟨rs, hok, hmap⟩ | ⟨e, pre, p, post, herr, hdec, hpre, hp⟩
        · left
          refine ⟨r :: rs, ?_, ?_⟩
          · rw [hloop, hok]; rfl
          · simp only [List.map_cons, hmap, hfil, hr.1, hr.2]
        · right
          refine ⟨e, (i, c) :: pre, p, post, ?_, ?_, ?_, hp⟩
          · rw [hloop, herr]; rfl
          · rw [hfil, hdec]; rfl
          · intro q hq
            rcases List.mem_cons.mp hq with rfl | hq'
            · exact ⟨r, hc⟩
            · exact hpre q hq'

/-! ## Documents without boundary markers, and index monotonicity -/

/-- Does the splitting pattern match at some scan position of `l`, when
the character preceding `l` is `prev`?  This is the "document contains a
boundary marker" predicate of the specification's edge case. -/
def hasBoundaryFrom : Option Char → List Char → Bool
  | _, [] => false
  | prev, c :: rest => (firstMatch prev (c :: rest)).isSome || hasBoundaryFrom (some c) rest

/-- The stripped document contains a boundary marker of the pattern. -/
def hasBoundary (l : List Char) : Bool :=
  hasBoundaryFrom none l

theorem firstMatch_nil (prev : Option Char) : firstMatch prev [] = none := by
  simp [firstMatch, alt1, alt2, alt3]

theorem splitScanF_ne_nil : ∀ (fuel : Nat) (prev : Option Char) (acc l : List Char),
    splitScanF fuel prev acc l ≠ [] := by
  intro fuel
  induction fuel with
  | zero => intro prev acc l; simp [splitScanF]
  | succ f ih =>
    intro prev acc l
    simp only [splitScanF]
    cases hm : firstMatch prev l with
    | some mr => obtain ⟨m, r⟩ := mr; simp
    | none =>
      cases l with
      | nil => simp
      | cons c rest => exact ih _ _ _

theorem splitScanF_no_match : ∀ (l : List Char) (fuel : Nat) (prev : Option Char)
    (acc : List Char), l.length < fuel → hasBoundaryFrom prev l = false →
    splitScanF fuel prev acc l = [acc.reverse ++ l] := by
  intro l
  induction l with
  | nil =>
    intro fuel prev acc hf _
    cases fuel with
    | zero => omega
    | succ f => simp [splitScanF, firstMatch_nil]
  | cons c rest ih =>
    intro fuel prev acc hf hb
    cases fuel with
    | zero => omega
    | succ f =>
      have hb2 : (firstMatch prev (c :: rest)).isSome = false ∧
          hasBoundaryFrom (some c) rest = false := by
        simpa [hasBoundaryFrom] using hb
      have hfm : firstMatch prev (c :: rest) = none :=
        Option.not_isSome_iff_eq_none.mp (by simp [hb2.1])
      simp only [splitScanF, hfm]
      rw [ih f (some c) (c :: acc) (by simp at hf ⊢; omega) hb2.2]
      simp

theorem enumFrom_fst_pairwise : ∀ (cs : List (List Char)) (i : Nat),
    (List.enumFrom i cs).Pairwise (fun p q => p.1 < q.1) := by
  intro cs
  induction cs with
  | nil => intro i; simp [List.enumFrom]
  | cons c cs ih =>
    intro i
    simp only [List.enumFrom]
    rw [List.pairwise_cons]
    refine ⟨?_, ih (i + 1)⟩
    intro q hq
    rcases q with ⟨j, x⟩
    have hj := (List.mem_enumFrom hq).1
    show i < j
    omega

theorem sum_map_ite {α : Type} (p : α → Bool) : ∀ l : List α,
    (l.map (fun x => if p x then (1 : Nat) else 0)).sum = (l.filter p).length := by
  intro l
  induction l with
  | nil => rfl
  | cons x xs ih =>
    cases h : p x <;> simp [List.filter_cons, h, ih, Nat.add_comm]

/-! ## The claims -/

/-- C2: `classify_clause` returns the first category, in the declared
order Obligation, Rights, Confidentiality, Risk, with a case-insensitive
keyword match, and "Other" when none matches; in particular the
shall-clause about confidentiality is classified "Obligation". -/
theorem classify_clause_first_category :
    (∀ clause : List Char, classify_clause clause =
      (if kwMatch obligationKeywords clause then "Obligation".toList
       else if kwMatch rightsKeywords clause then "Rights".toList
       else if kwMatch confidentialityKeywords clause then "Confidentiality".toList
       else if kwMatch riskCategoryKeywords clause then "Risk".toList
       else "Other".toList)) ∧
    classify_clause "The Employee shall maintain confidentiality.".toList = "Obligation".toList := by
  refine ⟨?_, by decide⟩
  intro clause
  cases h1 : kwMatch obligationKeywords clause <;>
    cases h2 : kwMatch rightsKeywords clause <;>
      cases h3 : kwMatch confidentialityKeywords clause <;>
        cases h4 : kwMatch riskCategoryKeywords clause <;>
          simp [classify_clause, clause_keywords, List.find?_cons, h1, h2, h3, h4]

/-- C3: `grade_clause` scores a clause by how many of the four risk
keywords occur in its lowercased text (each counted once), grades the
score High at 2 or more, Medium at 1 and Low at 0, and grades the spec's
example clause (score 3) "High". -/
theorem grade_clause_score_importance :
    (∀ clause : List Char,
      (grade_clause clause).2 =
        (risk_keywords.filter (fun kw => isSubstr kw (pyLower clause))).length ∧
      (grade_clause clause).1 =
        (if 2 ≤ (grade_clause clause).2 then "High".toList
         else if (grade_clause clause).2 = 1 then "Medium".toList
         else "Low".toList)) ∧
    grade_clause "The party shall be liable and must indemnify the other party upon breach.".toList =
      ("High".toList, 3) := by
  refine ⟨?_, by decide⟩
  intro clause
  refine ⟨?_, rfl⟩
  show (risk_keywords.map (fun kw => if isSubstr kw (pyLower clause) then (1 : Nat) else 0)).sum = _
  exact sum_map_ite _ risk_keywords

/-- C5: `analyze_document` on the empty string returns the empty result
sequence, for every behaviour of the external models, and no error. -/
theorem analyze_document_empty (M : ExtModels) :
    analyze_document M [] = Except.ok [] := rfl

/-- C6: `split_into_clauses` always returns at least one clause, and on
a document without boundary markers it returns exactly the whole
stripped document as a single clause. -/
theorem split_into_clauses_total (text : List Char) :
    split_into_clauses text ≠ [] ∧
    (hasBoundary (pyStrip text) = false → split_into_clauses text = [pyStrip text]) := by
  constructor
  · exact splitScanF_ne_nil _ _ _ _
  · intro hb
    unfold split_into_clauses
    rw [splitScanF_no_match _ _ _ _ (by omega) hb]
    simp

/-- Witness for C6 at the concrete document "hello world". -/
theorem split_into_clauses_total_witness :
    split_into_clauses "hello world".toList ≠ [] ∧
    split_into_clauses "hello world".toList = [pyStrip "hello world".toList] :=
  ⟨(split_into_clauses_total _).1, (split_into_clauses_total _).2 (by decide)⟩

/-- C7: `rewrite_clause` returns one of three fixed strings: the
indemnity suggestion when the lowercased clause contains "indemnify",
otherwise the liability suggestion when it contains "liable", otherwise
"Clause appears clear."; a clause containing both keywords gets the
indemnity suggestion. -/
theorem rewrite_clause_three_outputs :
    (∀ c : List Char, isSubstr "indemnify".toList (pyLower c) = true →
      rewrite_clause c = "Consider softening indemnity to mutual responsibility.".toList) ∧
    (∀ c : List Char, isSubstr "indemnify".toList (pyLower c) = false →
      isSubstr "liable".toList (pyLower c) = true →
      rewrite_clause c = "Clarify or limit liability language.".toList) ∧
    (∀ c : List Char, isSubstr "indemnify".toList (pyLower c) = false →
      isSubstr "liable".toList (pyLower c) = false →
      rewrite_clause c = "Clause appears clear.".toList) ∧
    rewrite_clause "Party A shall indemnify Party B and shall be liable for damages.".toList =
      "Consider softening indemnity to mutual responsibility.".toList := by
  refine ⟨?_, ?_, ?_, by decide⟩
  · intro c h
    simp only [rewrite_clause]
    rw [if_pos h]
  · intro c h1 h2
    simp only [rewrite_clause]
    rw [if_neg (fun hb => Bool.false_ne_true (h1.symm.trans hb)), if_pos h2]
  · intro c h1 h2
    simp only [rewrite_clause]
    rw [if_neg (fun hb => Bool.false_ne_true (h1.symm.trans hb)),
      if_neg (fun hb => Bool.false_ne_true (h2.symm.trans hb))]

/-- Witness for C7 at the specification's three example clauses. -/
theorem rewrite_clause_three_outputs_witness :
    rewrite_clause "Party A shall indemnify Party B.".toList =
      "Consider softening indemnity to mutual responsibility.".toList ∧
    rewrite_clause "Party A shall be liable for damages.".toList =
      "Clarify or limit liability language.".toList ∧
    rewrite_clause "All terms are final.".toList = "Clause appears clear.".toList :=
  ⟨rewrite_clause_three_outputs.1 _ (by decide),
   rewrite_clause_three_outputs.2.1 _ (by decide) (by decide),
   rewrite_clause_three_outputs.2.2.1 _ (by decide) (by decide)⟩

/-- C8: `analyze_tone` only depends on the first 512 characters of the
clause and `summarize` only on the first 1024 characters of the
document, for any behaviour of the external models. -/
theorem truncation_noninterference (M : ExtModels) (c1 c2 d1 d2 : List Char)
    (hc : c1.take 512 = c2.take 512) (hd : d1.take 1024 = d2.take 1024) :
    analyze_tone M c1 = analyze_tone M c2 ∧ summarize M d1 = summarize M d2 := by
  constructor
  · unfold analyze_tone; rw [hc]
  · unfold summarize; rw [hd]

/-- Witness for C8 at concrete strings that differ beyond the cutoffs. -/
theorem truncation_noninterference_witness :
    analyze_tone pureModels (List.replicate 600 'a') =
      analyze_tone pureModels (List.replicate 512 'a' ++ List.replicate 88 'b') ∧
    summarize pureModels (List.replicate 1100 'x') =
      summarize pureModels (List.replicate 1024 'x' ++ List.replicate 76 'y') :=
  truncation_noninterference pureModels _ _ _ _
    (by
      rw [List.take_replicate, List.take_append_of_le_length (by simp), List.take_replicate]
      norm_num)
    (by
      rw [List.take_replicate, List.take_append_of_le_length (by simp), List.take_replicate]
      norm_num)

/-- C9: `detect_boilerplate` is true exactly when some fixed template's
case-insensitive similarity ratio with the clause exceeds 0.8 (the
difflib matching-block ratio, compared with 0.8 over the rationals), and
the governing-law clause is detected as boilerplate. -/
theorem detect_boilerplate_iff :
    (∀ clause : List Char, detect_boilerplate clause = true ↔
      ∃ t ∈ boilerplate_templates, seqRatioGt08 (pyLower clause) (pyLower t) = true) ∧
    detect_boilerplate
      "This Agreement shall be governed by the laws of the State of California.".toList = true := by
  refine ⟨?_, by decide⟩
  intro clause
  simp [detect_boilerplate, List.any_eq_true]

/-- C4: `analyze_document` is all-or-nothing: it returns either the full
ordered sequence of results, one per retained clause, or the error of
the first retained clause whose analysis fails — never a partial
sequence. -/
theorem analyze_document_all_or_nothing (M : ExtModels) (text : List Char) :
    (∃ rs, analyze_document M text = Except.ok rs ∧
      rs.map (fun r => (r.clause_num, r.clause_text)) = retainedClauses text) ∨
    (∃ e pre p post, analyze_document M text = Except.error e ∧
      retainedClauses text = pre ++ p :: post ∧
      (∀ q ∈ pre, ∃ r, analyzeClause M q.1 q.2 = Except.ok r) ∧
      analyzeClause M p.1 p.2 = Except.error e) :=
  analyzeLoop_cases M (split_into_clauses text) 1

/-- On success, the results pair up exactly with the retained clauses of
the splitter output, keeping their `enumerate(clauses, 1)` positions. -/
theorem analyze_document_ok_map (M : ExtModels) (text : List Char)
    (rs : List ClauseResult) (h : analyze_document M text = Except.ok rs) :
    rs.map (fun r => (r.clause_num, r.clause_text)) = retainedClauses text := by
  rcases analyzeLoop_cases M (split_into_clauses text) 1 with ⟨rs', hok, hmap⟩ |
    ⟨e, pre, p, post, herr, -, -, -⟩
  · unfold analyze_document at h
    rw [h] at hok
    cases hok
    exact hmap
  · unfold analyze_document at h
    rw [h] at herr
    simp at herr

/-- C1 is false on the code: for the document "a\n\nb" the splitter
yields ["a", "", "b"], the empty middle clause is dropped, and the two
retained clauses carry clause_num 1 and 3 — not the contiguous sequence
1, 2 that indexing the retained clauses from 1 would give. -/
theorem analyze_document_indices_cex :
    Except.map (List.map ClauseResult.clause_num)
        (analyze_document pureModels "a\n\nb".toList) ≠
      Except.map (fun rs => List.range' 1 rs.length)
        (analyze_document pureModels "a\n\nb".toList) := by
  decide

/-- C1 amended: the clause_num values in `analyze_document`'s output are
the 1-based positions of the retained clauses in `split_into_clauses`'s
full output, counting the dropped empty entries — dropped entries leave
gaps instead of renumbering the survivors. -/
theorem analyze_document_indices (M : ExtModels) (text : List Char)
    (rs : List ClauseResult) (h : analyze_document M text = Except.ok rs) :
    rs.map ClauseResult.clause_num = (retainedClauses text).map Prod.fst := by
  rw [← analyze_document_ok_map M text rs h, List.map_map]
  rfl

/-- Witness for C1's amended claim at the document "a\n\nb". -/
theorem analyze_document_indices_witness :
    ([⟨1, "a".toList, "Other".toList, "Low".toList, 0, [], false, "positive".toList,
        "neutral".toList, "Clause appears clear.".toList⟩,
      ⟨3, "b".toList, "Other".toList, "Low".toList, 0, [], false, "positive".toList,
        "neutral".toList, "Clause appears clear.".toList⟩] : List ClauseResult).map
        ClauseResult.clause_num =
      (retainedClauses "a\n\nb".toList).map Prod.fst :=
  analyze_document_indices pureModels "a\n\nb".toList _ (by decide)

/-- C10: clause numbers strictly increase along the output, and each
result's clause_num is the 1-based position of its clause text in the
full splitter output (dropped empty entries leave gaps in the
numbering). -/
theorem analyze_document_nums_positions (M : ExtModels) (text : List Char)
    (rs : List ClauseResult) (h : analyze_document M text = Except.ok rs) :
    (rs.map ClauseResult.clause_num).Pairwise (· < ·) ∧
    rs.map (fun r => (r.clause_num, r.clause_text)) = retainedClauses text := by
  have hmap := analyze_document_ok_map M text rs h
  refine ⟨?_, hmap⟩
  have hpair : (retainedClauses text).Pairwise (fun p q => p.1 < q.1) :=
    List.Pairwise.sublist (List.filter_sublist _)
      (enumFrom_fst_pairwise (split_into_clauses text) 1)
  have hnum : rs.map ClauseResult.clause_num = (retainedClauses text).map Prod.fst := by
    rw [← hmap, List.map_map]
    rfl
  rw [hnum]
  exact List.pairwise_map.mpr hpair

/-- Witness for C10 at the document "x\n\ny". -/
theorem analyze_document_nums_positions_witness :
    (([⟨1, "x".toList, "Other".toList, "Low".toList, 0, [], false, "positive".toList,
        "neutral".toList, "Clause appears clear.".toList⟩,
      ⟨3, "y".toList, "Other".toList, "Low".toList, 0, [], false, "positive".toList,
        "neutral".toList, "Clause appears clear.".toList⟩] : List ClauseResult).map
        ClauseResult.clause_num).Pairwise (· < ·) ∧
    (([⟨1, "x".toList, "Other".toList, "Low".toList, 0, [], false, "positive".toList,
        "neutral".toList, "Clause appears clear.".toList⟩,
      ⟨3, "y".toList, "Other".toList, "Low".toList, 0, [], false, "positive".toList,
        "neutral".toList, "Clause appears clear.".toList⟩] : List ClauseResult).map
        (fun r => (r.clause_num, r.clause_text))) = retainedClauses "x\n\ny".toList :=
  analyze_document_nums_positions pureModels "x\n\ny".toList _ (by decide)

end Finale
